import Mathlib

/-!
Shallow embedding of the Voronoi sweep-line core of `stales-geom-viewer`
(`src/point.rs`, `src/geom.rs`, `src/bin/voronoi/event.rs`,
`src/bin/voronoi/beachline.rs`, `src/bin/voronoi/voronoi.rs`).

Modelling conventions:
* `f64` coordinates are modelled by `ℚ` (finite, non-NaN doubles, exact
  arithmetic); every division performed by the embedded code is guarded by
  the same zero tests the source performs.
* Where NaN behaviour is observable (the event ordering built on
  `f64::partial_cmp`) the sweep value is modelled by `Option ℚ`, with `none`
  playing the role of NaN; `fpcmp` mirrors `partial_cmp` on that model.
* `f64::sqrt` is modelled by `ratSqrt`, exact on perfect rational squares
  (the only inputs any proved statement evaluates it on).
* Rust panics (`unwrap`, out-of-bounds indexing, explicit `panic!`) are
  modelled by `Option`-valued functions returning `none`.
* `petgraph` node storage is modelled by an `Array`: `add_node` appends and
  returns the next sequential index, and this program never removes nodes,
  so indices are stable — exactly the invariant `split_arc` relies on.
* Loops whose termination depends on tree well-formedness take an explicit
  fuel argument (always called with more fuel than any terminating source
  execution consumes); fuel exhaustion models divergence as `none`.
* `src/bin/voronoi/dcel.rs` is declared (`pub mod dcel;`) but absent from
  the source tree; the DCEL data structures and the helpers `add_twins` /
  `get_origin` are modelled from the spec, as marked below.
* `beachline.rs` declares `root: usize` with a `NIL` sentinel while
  `voronoi.rs` assigns `Some(..)` to it and calls `is_none()` on it; the
  two files agree only on the `Option` reading used by `voronoi.rs`
  (the file the claims point at), so `root` is modelled as `Option ℕ`.
-/

namespace Voronoi

/-- `Point` from `src/point.rs`: a 2D point with `OrderedFloat<f64>`
coordinates, modelled over `ℚ`. -/
structure Point where
  x : ℚ
  y : ℚ
deriving DecidableEq

/-- `impl Ord for Point` (`src/point.rs` lines 81-91): greater `y` compares
greater; at equal `y`, the *smaller* `x` compares greater; equal iff both
coordinates are equal. -/
def Point.cmp (p other : Point) : Ordering :=
  if p.y > other.y then .gt
  else if p.y = other.y then
    if p.x < other.x then .gt
    else if p.x = other.x then .eq
    else .lt
  else .lt

/-- A `f64` value that may be NaN: `none` models NaN, `some q` a finite
value. Used where the source's NaN behaviour is observable. -/
abbrev F64 := Option ℚ

/-- IEEE addition restricted to this model: NaN propagates. -/
def fadd : F64 → F64 → F64
  | some a, some b => some (a + b)
  | _, _ => none

/-- `f64::partial_cmp`: `none` (incomparable) when either side is NaN,
otherwise the ordinary comparison. -/
def fpcmp : F64 → F64 → Option Ordering
  | some a, some b => some (if a < b then .lt else if a = b then .eq else .gt)
  | _, _ => none

/-- `f64::sqrt` on the exact-rational fragment: the exact square root when
the operand is a perfect rational square, a junk value (0) otherwise.
Every proved statement evaluates it only on perfect squares. -/
def ratSqrt (q : ℚ) : ℚ :=
  let n := Nat.sqrt q.num.natAbs
  let d := Nat.sqrt q.den
  if (n * n : ℤ) = q.num ∧ d * d = q.den then (n : ℚ) / (d : ℚ) else 0

abbrev TripleSite := Point × Point × Point

/-- `circle_center` from `src/geom.rs` lines 240-270: circumcenter of three
sites, `none` when the determinant denominator vanishes. -/
def circle_center : TripleSite → Option Point :=
  fun (p1, p2, p3) =>
    let x1 := p1.x
    let x2 := p2.x
    let x3 := p3.x
    let y1 := p1.y
    let y2 := p2.y
    let y3 := p3.y
    let c1 := x3 * x3 + y3 * y3 - x1 * x1 - y1 * y1
    let c2 := x3 * x3 + y3 * y3 - x2 * x2 - y2 * y2
    let a1 := -2 * (x1 - x3)
    let a2 := -2 * (x2 - x3)
    let b1 := -2 * (y1 - y3)
    let b2 := -2 * (y2 - y3)
    let numer := c1 * a2 - c2 * a1
    let denom := b1 * a2 - b2 * a1
    if denom = 0 then none
    else
      let y_cen := numer / denom
      let x_cen := if a2 ≠ 0 then (c2 - b2 * y_cen) / a2 else (c1 - b1 * y_cen) / a1
      some ⟨x_cen, y_cen⟩

/-- `circle_bottom` from `src/geom.rs` lines 224-238: the `y` of the lowest
point of the circumcircle (`y_cen - r`), `none` when the center is undefined. -/
def circle_bottom (triple_site : TripleSite) : Option ℚ :=
  match circle_center triple_site with
  | none => none
  | some cc =>
    let p3 := triple_site.2.2
    let r := ratSqrt ((p3.x - cc.x) * (p3.x - cc.x) + (p3.y - cc.y) * (p3.y - cc.y))
    some (cc.y - r)

/-- Three sites are collinear: the orientation determinant vanishes. -/
def Collinear (p1 p2 p3 : Point) : Prop :=
  (p2.x - p1.x) * (p3.y - p1.y) - (p2.y - p1.y) * (p3.x - p1.x) = 0

/-- `CircleEvent` from `src/bin/voronoi/event.rs`; `radius` keeps the NaN-capable
model because the event ordering adds it to a coordinate. -/
structure CircleEvent where
  center : Point
  radius : F64
  vanishing_arc : ℕ
  id : ℕ
deriving DecidableEq

/-- `Event` from `src/bin/voronoi/event.rs`. -/
inductive Event where
  | site (p : Point)
  | circle (data : CircleEvent)
deriving DecidableEq

/-- `Event::get_y` (`event.rs` lines 60-67): the sweep value — a site's `y`,
or `center.y + radius` for a circle event. -/
def Event.get_y : Event → F64
  | .site pt => some pt.y
  | .circle data => fadd (some data.center.y) data.radius

/-- `impl Ord for Event` (`event.rs` lines 54-58):
`partial_cmp` on the sweep values, defaulting an incomparable result to
`Greater`. -/
def Event.cmp (e other : Event) : Ordering :=
  (fpcmp e.get_y other.get_y).getD .gt

/-- `EventQueue` from `event.rs` lines 69-74. The `BinaryHeap` is modelled by
the list of its elements (`pop` extracts a maximal element w.r.t.
`Event.cmp`, see `selectMax`); `FnvHashSet` is modelled by a `Finset`. -/
structure EventQueue where
  next_event_id : ℕ
  events : List Event
  removed_event_ids : Finset ℕ
deriving DecidableEq

def EventQueue.new : EventQueue := ⟨0, [], ∅⟩

/-- Id stamping performed by `EventQueue::push`: only circle events get the
fresh id. -/
def stampId : Event → ℕ → Event
  | .circle data, i => .circle { data with id := i }
  | .site p, _ => .site p

/-- `EventQueue::push` (`event.rs` lines 94-108): stamps a fresh id onto a
circle event, inserts, and returns the id. -/
def EventQueue.push (q : EventQueue) (event : Event) : EventQueue × ℕ :=
  let event_id := q.next_event_id
  ({ next_event_id := event_id + 1
     events := q.events ++ [stampId event event_id]
     removed_event_ids := q.removed_event_ids }, event_id)

/-- `BinaryHeap::pop` model: extract a maximal element (w.r.t. `Event.cmp`,
first such among ties) together with the remaining elements. -/
def selectMax : List Event → Option (Event × List Event)
  | [] => none
  | e :: es =>
    match selectMax es with
    | none => some (e, [])
    | some (m, rest) =>
      if Event.cmp e m = .lt then some (m, e :: rest) else some (e, es)

/-- The lazy-deletion loop inside `EventQueue::pop` (`event.rs` lines
110-122): pop a maximal event; a circle event whose id is in the removed
set is skipped (consuming the mark) and popping continues. The fuel always
exceeds the list length at the call site, so exhaustion is unreachable. -/
def popLoopF : ℕ → List Event → Finset ℕ → Option Event × List Event × Finset ℕ
  | 0, events, removed => (none, events, removed)
  | fuel + 1, events, removed =>
    match selectMax events with
    | none => (none, events, removed)
    | some (event, rest) =>
      match event with
      | .circle data =>
        if data.id ∈ removed then popLoopF fuel rest (removed.erase data.id)
        else (some (.circle data), rest, removed)
      | .site p => (some (.site p), rest, removed)

/-- `EventQueue::pop`. -/
def EventQueue.pop (q : EventQueue) : Option Event × EventQueue :=
  let r := popLoopF (q.events.length + 1) q.events q.removed_event_ids
  (r.1, { q with events := r.2.1, removed_event_ids := r.2.2 })

/-- `EventQueue::remove` (`event.rs` lines 124-126): record the id as
cancelled; the heap is untouched. -/
def EventQueue.remove (q : EventQueue) (event_id : ℕ) : EventQueue :=
  { q with removed_event_ids := insert event_id q.removed_event_ids }

/-- Whether an event carries the given circle-event id. -/
def Event.hasId (i : ℕ) : Event → Bool
  | .circle data => data.id == i
  | .site _ => false

/-- An abstract client operation on the queue. -/
inductive QOp where
  | push (e : Event)
  | popOp
  | removeOp (i : ℕ)

/-- One client operation; `pop`'s result is the observable output. -/
def EventQueue.stepOp (q : EventQueue) : QOp → EventQueue × Option Event
  | .push e => ((q.push e).1, none)
  | .popOp => let r := q.pop; (r.2, r.1)
  | .removeOp i => (q.remove i, none)

/-- Run a sequence of client operations, collecting each step's output. -/
def runOps (q : EventQueue) : List QOp → EventQueue × List (Option Event)
  | [] => (q, [])
  | op :: ops =>
    let r := q.stepOp op
    let rest := runOps r.1 ops
    (rest.1, r.2 :: rest.2)

/-- Structural invariant of every reachable queue: all circle ids in the
heap are below the id counter, and no id occurs twice in the heap. -/
def QInv (q : EventQueue) : Prop :=
  (∀ e ∈ q.events, ∀ data, e = .circle data → data.id < q.next_event_id) ∧
  (∀ i, q.events.countP (Event.hasId i) ≤ 1)

/-- State of the cancellation of id `i`: at most one copy in the heap, any
copy is marked removed, and if the counter has not yet reached `i` the heap
holds no copy while the mark is in place for the copy yet to come. -/
def CancelInv (i : ℕ) (q : EventQueue) : Prop :=
  q.events.countP (Event.hasId i) ≤ 1 ∧
  (1 ≤ q.events.countP (Event.hasId i) → i ∈ q.removed_event_ids) ∧
  (q.next_event_id ≤ i →
    i ∈ q.removed_event_ids ∧ q.events.countP (Event.hasId i) = 0)

/-- `Breakpoint` from `src/bin/voronoi/beachline.rs`. -/
structure Breakpoint where
  left : Point
  right : Point
  edge_idx : ℕ
deriving DecidableEq

/-- `Arc` from `beachline.rs`. -/
structure Arc where
  site : Point
  site_event : Option ℕ
deriving DecidableEq

/-- `BeachItem` from `beachline.rs`. -/
inductive BeachItem where
  | breakpoint (b : Breakpoint)
  | arc (a : Arc)
deriving DecidableEq

/-- `BeachNode` from `beachline.rs`. -/
structure BeachNode where
  parent : Option ℕ
  left : Option ℕ
  right : Option ℕ
  item : BeachItem
deriving DecidableEq

/-- `Breakpoint::get_x` (`beachline.rs` lines 43-66): current x of the
breakpoint at sweep height `yl`. -/
def Breakpoint.get_x (bp : Breakpoint) (yl : ℚ) : ℚ :=
  let ax := bp.left.x
  let bx := bp.right.x
  let ay := bp.left.y
  let b_y := bp.right.y
  let bx_s := bx - ax
  let ay_s := ay - yl
  let by_s := b_y - yl
  let discrim := ay_s * by_s * ((ay_s - by_s) * (ay_s - by_s) + bx_s * bx_s)
  let numer := ay_s * bx_s - ratSqrt discrim
  let denom := ay_s - by_s
  let x_bp := if denom ≠ 0 then numer / denom else bx_s / 2
  x_bp + ax

/-- `Breakpoint::breakpoints_converge` (`beachline.rs` lines 82-92). -/
def breakpoints_converge (triple_site : TripleSite) : Bool :=
  let (a, b, c) := triple_site
  decide ((a.y - b.y) * (b.x - c.x) > (b.y - c.y) * (a.x - b.x))

/-- `Beachline` from `beachline.rs`: the `petgraph` `DiGraph` is modelled as
the array of its nodes plus the list of its directed edges. -/
structure Beachline where
  nodes : Array BeachNode
  edges : List (ℕ × ℕ)
  root : Option ℕ
deriving DecidableEq

def Beachline.new : Beachline := ⟨#[], [], none⟩

/-- `Beachline::is_empty`. -/
def Beachline.is_empty (b : Beachline) : Bool :=
  b.edges.length == 0 && b.nodes.size == 0

/-- `Beachline::insert_point` (`beachline.rs` lines 116-122): add the sole
root arc; the new node's index is the previous node count. -/
def Beachline.insert_point (b : Beachline) (pt : Point) : Beachline :=
  { b with
    nodes := b.nodes.push ⟨none, none, none, .arc ⟨pt, none⟩⟩
    root := some b.nodes.size }

/-- Guarded in-place node update: the source writes through
`graph[node_index(i)]`, which panics on an invalid index. -/
def Beachline.setNode (b : Beachline) (i : ℕ) (f : BeachNode → BeachNode) :
    Option Beachline :=
  if h : i < b.nodes.size then
    some { b with nodes := b.nodes.set ⟨i, h⟩ (f (b.nodes.get ⟨i, h⟩)) }
  else none

/-- `Beachline::tree_minimum` descent loop, fuelled. -/
def treeMinAux (b : Beachline) : ℕ → ℕ → Option ℕ
  | 0, _ => none
  | fuel + 1, current =>
    match b.nodes[current]? with
    | none => none
    | some node =>
      match node.left with
      | some l => treeMinAux b fuel l
      | none => some current

/-- `Beachline::tree_minimum` (`beachline.rs` lines 140-146). -/
def Beachline.tree_minimum (b : Beachline) (root : ℕ) : Option ℕ :=
  treeMinAux b (b.nodes.size + 1) root

/-- `Beachline::tree_maximum` descent loop, fuelled. -/
def treeMaxAux (b : Beachline) : ℕ → ℕ → Option ℕ
  | 0, _ => none
  | fuel + 1, current =>
    match b.nodes[current]? with
    | none => none
    | some node =>
      match node.right with
      | some r => treeMaxAux b fuel r
      | none => some current

/-- `Beachline::tree_maximum` (`beachline.rs` lines 148-154). -/
def Beachline.tree_maximum (b : Beachline) (root : ℕ) : Option ℕ :=
  treeMaxAux b (b.nodes.size + 1) root

/-- The parent-climbing loop of `Beachline::successor`: ascend while the
current node is its parent's right child; the outer `none` is a failed
graph read, the inner option is the source's return value. -/
def climbRight (b : Beachline) :
    ℕ → Option ℕ → Option ℕ → Option (Option ℕ)
  | 0, _, _ => none
  | fuel + 1, current, parent =>
    match parent with
    | none => some none
    | some p =>
      match b.nodes[p]? with
      | none => none
      | some pnode =>
        if current = pnode.right then climbRight b fuel (some p) pnode.parent
        else some (some p)

/-- The parent-climbing loop of `Beachline::predecessor`. -/
def climbLeft (b : Beachline) :
    ℕ → Option ℕ → Option ℕ → Option (Option ℕ)
  | 0, _, _ => none
  | fuel + 1, current, parent =>
    match parent with
    | none => some none
    | some p =>
      match b.nodes[p]? with
      | none => none
      | some pnode =>
        if current = pnode.left then climbLeft b fuel (some p) pnode.parent
        else some (some p)

/-- `Beachline::successor` (`beachline.rs` lines 156-167). Outer `none`
models a panic/divergence; the inner option is the source's `Option`. -/
def Beachline.successor (b : Beachline) (node : ℕ) : Option (Option ℕ) :=
  match b.nodes[node]? with
  | none => none
  | some nd =>
    match nd.right with
    | some right => (b.tree_minimum right).map some
    | none => climbRight b (b.nodes.size + 1) (some node) nd.parent

/-- `Beachline::predecessor` (`beachline.rs` lines 169-180). -/
def Beachline.predecessor (b : Beachline) (node : ℕ) : Option (Option ℕ) :=
  match b.nodes[node]? with
  | none => none
  | some nd =>
    match nd.left with
    | some left => (b.tree_maximum left).map some
    | none => climbLeft b (b.nodes.size + 1) (some node) nd.parent

/-- `Beachline::get_left_arc` (`beachline.rs` lines 182-184): two
predecessor hops. -/
def Beachline.get_left_arc (b : Beachline) (node : Option ℕ) :
    Option (Option ℕ) :=
  match node with
  | none => some none
  | some n =>
    match b.predecessor n with
    | none => none
    | some none => some none
    | some (some l) => b.predecessor l

/-- `Beachline::get_right_arc` (`beachline.rs` lines 186-188): two
successor hops. -/
def Beachline.get_right_arc (b : Beachline) (node : Option ℕ) :
    Option (Option ℕ) :=
  match node with
  | none => some none
  | some n =>
    match b.successor n with
    | none => none
    | some none => some none
    | some (some r) => b.successor r

/-- `Beachline::get_site` (`beachline.rs` lines 245-250). -/
def Beachline.get_site (b : Beachline) (node : Option ℕ) :
    Option (Option Point) :=
  match node with
  | none => some none
  | some n =>
    match b.nodes[n]? with
    | none => none
    | some nd =>
      match nd.item with
      | .arc a => some (some a.site)
      | _ => some none

/-- `Beachline::get_edge` (`beachline.rs` lines 252-258): panics unless the
node is a breakpoint. -/
def Beachline.get_edge (b : Beachline) (node : ℕ) : Option ℕ :=
  match b.nodes[node]? with
  | none => none
  | some nd =>
    match nd.item with
    | .breakpoint bp => some bp.edge_idx
    | _ => none

/-- `Beachline::set_right_site` (`beachline.rs` lines 229-235). -/
def Beachline.set_right_site (b : Beachline) (node : ℕ) (site : Point) :
    Option Beachline :=
  match b.nodes[node]? with
  | none => none
  | some nd =>
    match nd.item with
    | .breakpoint bp => b.setNode node (fun n => { n with item := .breakpoint { bp with right := site } })
    | _ => none

/-- `Beachline::set_left_site` (`beachline.rs` lines 237-243). -/
def Beachline.set_left_site (b : Beachline) (node : ℕ) (site : Point) :
    Option Beachline :=
  match b.nodes[node]? with
  | none => none
  | some nd =>
    match nd.item with
    | .breakpoint bp => b.setNode node (fun n => { n with item := .breakpoint { bp with left := site } })
    | _ => none

/-- `Beachline::get_leftward_triple` (`beachline.rs` lines 190-201). -/
def Beachline.get_leftward_triple (b : Beachline) (node : ℕ) :
    Option (Option TripleSite) := do
  let l_arc ← b.get_left_arc (some node)
  let ll_arc ← b.get_left_arc l_arc
  let this_site ← b.get_site (some node)
  let l_site ← b.get_site l_arc
  let ll_site ← b.get_site ll_arc
  match this_site, l_site, ll_site with
  | some t, some l, some ll => pure (some (ll, l, t))
  | _, _, _ => pure none

/-- `Beachline::get_rightward_triple` (`beachline.rs` lines 203-214). -/
def Beachline.get_rightward_triple (b : Beachline) (node : ℕ) :
    Option (Option TripleSite) := do
  let r_arc ← b.get_right_arc (some node)
  let rr_arc ← b.get_right_arc r_arc
  let this_site ← b.get_site (some node)
  let r_site ← b.get_site r_arc
  let rr_site ← b.get_site rr_arc
  match this_site, r_site, rr_site with
  | some t, some r, some rr => pure (some (t, r, rr))
  | _, _, _ => pure none

/-- `Beachline::get_centered_triple` (`beachline.rs` lines 216-227). -/
def Beachline.get_centered_triple (b : Beachline) (node : ℕ) :
    Option (Option TripleSite) := do
  let r_arc ← b.get_right_arc (some node)
  let l_arc ← b.get_left_arc (some node)
  let this_site ← b.get_site (some node)
  let r_site ← b.get_site r_arc
  let l_site ← b.get_site l_arc
  match this_site, l_site, r_site with
  | some t, some l, some r => pure (some (l, t, r))
  | _, _, _ => pure none

/-- The descent loop of `Beachline::get_arc_above`, fuelled. -/
def arcAboveAux (b : Beachline) (pt : Point) : ℕ → ℕ → Option ℕ
  | 0, _ => none
  | fuel + 1, current =>
    match b.nodes[current]? with
    | none => none
    | some node =>
      match node.item with
      | .arc _ => some current
      | .breakpoint bp =>
        let x_bp := bp.get_x pt.y
        if pt.x < x_bp then
          match node.left with
          | some l => arcAboveAux b pt fuel l
          | none => none
        else
          match node.right with
          | some r => arcAboveAux b pt fuel r
          | none => none

/-- `Beachline::get_arc_above` (`beachline.rs` lines 124-138): panics on an
empty beachline, otherwise descends from the root. -/
def Beachline.get_arc_above (b : Beachline) (pt : Point) : Option ℕ :=
  if b.is_empty then none
  else
    match b.root with
    | none => none
    | some root => arcAboveAux b pt (b.nodes.size + 1) root

/-- Modelled from the spec: `src/bin/voronoi/dcel.rs` is declared but absent
from the source tree. The spec's §3 data model: a half-edge has an origin
vertex reference ("unset/at infinity until assigned"), a twin reference
(always set at creation), a next reference, and an alive flag. Unset
references use the `!0` sentinel the callers in `voronoi.rs` test against. -/
def NIL : ℕ := 2 ^ 64 - 1

/-- Modelled from the spec (§3 **Halfedge**, `dcel.rs` missing). -/
structure HalfEdge where
  origin : ℕ
  twin : ℕ
  next : ℕ
  alive : Bool
deriving DecidableEq

/-- Modelled from the spec (§3 **Vertex**, `dcel.rs` missing); the field
names are those `voronoi.rs` uses (`coordinates`, `incident_edge`, `alive`). -/
structure DcelVertex where
  coordinates : Point
  incident_edge : ℕ
  alive : Bool
deriving DecidableEq

/-- Modelled from the spec (§3 **Face**, `dcel.rs` missing): one outer
half-edge reference and an alive flag. -/
structure Face where
  outer_component : ℕ
  alive : Bool
deriving DecidableEq

/-- Modelled from the spec (§2 **DCEL Builder**, `dcel.rs` missing): an
incrementally-grown vertex/half-edge/face store. -/
structure DCEL where
  vertices : Array DcelVertex
  halfedges : Array HalfEdge
  faces : Array Face
deriving DecidableEq

def DCEL.new : DCEL := ⟨#[], #[], #[]⟩

/-- Modelled from the spec: `DCEL::add_twins` (`dcel.rs` missing) — "half-edges
are always created in twinned pairs"; appends two half-edges that are twins
of each other, with origin and next unset, and returns their indices. -/
def DCEL.add_twins (d : DCEL) : DCEL × ℕ × ℕ :=
  let i := d.halfedges.size
  ({ d with halfedges :=
      (d.halfedges.push ⟨NIL, i + 1, NIL, true⟩).push ⟨NIL, i, NIL, true⟩ },
   i, i + 1)

/-- Modelled from the spec: `DCEL::get_origin` (`dcel.rs` missing) — the
coordinates of the origin vertex of a half-edge; the source indexes the
vertex array directly, so an unset origin panics (`none` here). -/
def DCEL.get_origin (d : DCEL) (edge : ℕ) : Option Point := do
  let he ← d.halfedges[edge]?
  let v ← d.vertices[he.origin]?
  pure v.coordinates

/-- Guarded in-place half-edge update (`self.output.halfedges[i]` writes in
`voronoi.rs` panic on an invalid index). -/
def DCEL.setHalfedge (d : DCEL) (i : ℕ) (f : HalfEdge → HalfEdge) :
    Option DCEL :=
  if h : i < d.halfedges.size then
    some { d with halfedges := d.halfedges.set ⟨i, h⟩ (f (d.halfedges.get ⟨i, h⟩)) }
  else none

/-- `Algo` from `src/bin/voronoi/voronoi.rs` lines 128-133. -/
structure Algo where
  event_queue : EventQueue
  beachline : Beachline
  output : DCEL
deriving DecidableEq

/-- `Algo::new` (`voronoi.rs` lines 136-147): push a site event per input
point, start with an empty beachline and DCEL. -/
def Algo.new (points : List Point) : Algo :=
  { event_queue := points.foldl (fun q p => (q.push (.site p)).1) EventQueue.new
    beachline := Beachline.new
    output := DCEL.new }

/-- `Algo::remove_circle_event` (`voronoi.rs` lines 299-309): clear the
arc's pending event field and mark that id removed in the queue. -/
def Algo.remove_circle_event (a : Algo) (arc_idx : ℕ) : Option Algo := do
  let nd ← a.beachline.nodes[arc_idx]?
  match nd.item with
  | .arc ar => do
    let b ← a.beachline.setNode arc_idx
      (fun n => { n with item := .arc { ar with site_event := none } })
    let a := { a with beachline := b }
    match ar.site_event with
    | some ev => pure { a with event_queue := a.event_queue.remove ev }
    | none => pure a
  | _ => pure a

/-- `Algo::make_circle_event` (`voronoi.rs` lines 382-395): no circumcenter,
no event; otherwise push a circle event whose radius is
`circle_bottom - center.y` and record its id on the arc. -/
def Algo.make_circle_event (a : Algo) (arc : ℕ) (triple : TripleSite) :
    Option Algo :=
  match circle_center triple with
  | none => some a
  | some cc => do
    let cb ← circle_bottom triple
    let this_event : Event := .circle ⟨cc, some (cb - cc.y), arc, 0⟩
    let arcNode ← a.beachline.nodes[arc]?
    match arcNode.item with
    | .arc ar =>
      let r := a.event_queue.push this_event
      let b ← a.beachline.setNode arc
        (fun n => { n with item := .arc { ar with site_event := some r.2 } })
      pure { a with event_queue := r.1, beachline := b }
    | _ => pure a

/-- `Algo::split_arc` (`voronoi.rs` lines 313-380): replace the leaf `arc`
with the 5-node subtree AB / BA / A1 B A2, one fresh twin pair of
half-edges carried by the two breakpoints, and rewire the parent (or the
root). Returns the index of the middle (new-site) arc. -/
def Algo.split_arc (a : Algo) (arc : ℕ) (site : Point) :
    Option (Algo × ℕ) :=
  match a.beachline.nodes[arc]? with
  | none => none
  | some arcNode =>
    let parent := arcNode.parent
    let arc_pt : Point :=
      match arcNode.item with
      | .arc this_arc => this_arc.site
      | _ => ⟨0, 0⟩
    let r := a.output.add_twins
    let output := r.1
    let twin1 := r.2.1
    let twin2 := r.2.2
    let ind_AB := a.beachline.nodes.size
    let ind_BA := ind_AB + 1
    let ind_A1 := ind_AB + 2
    let ind_B := ind_AB + 3
    let ind_A2 := ind_AB + 4
    let node_AB : BeachNode :=
      ⟨parent, some ind_A1, some ind_BA, .breakpoint ⟨arc_pt, site, twin1⟩⟩
    let node_BA : BeachNode :=
      ⟨some ind_AB, some ind_B, some ind_A2, .breakpoint ⟨site, arc_pt, twin2⟩⟩
    let node_A1 : BeachNode := ⟨some ind_AB, none, none, .arc ⟨arc_pt, none⟩⟩
    let node_B : BeachNode := ⟨some ind_BA, none, none, .arc ⟨site, none⟩⟩
    let node_A2 : BeachNode := ⟨some ind_BA, none, none, .arc ⟨arc_pt, none⟩⟩
    let nodes := ((((a.beachline.nodes.push node_AB).push node_BA).push
      node_A1).push node_B).push node_A2
    let edges := a.beachline.edges ++
      [(ind_AB, ind_A1), (ind_AB, ind_BA), (ind_BA, ind_B), (ind_BA, ind_A2)]
    let b : Beachline := { a.beachline with nodes := nodes, edges := edges }
    match parent with
    | some parent_ind =>
      let edges := (b.edges.filter
          (fun e => !(e.1 == parent_ind && e.2 == arc))) ++ [(parent_ind, ind_AB)]
      let b : Beachline := { b with edges := edges }
      match b.nodes[parent_ind]? with
      | none => none
      | some parentNode =>
        if parentNode.right = some arc then
          match b.setNode parent_ind (fun nd => { nd with right := some ind_AB }) with
          | none => none
          | some b => some ({ a with beachline := b, output := output }, ind_B)
        else if parentNode.left = some arc then
          match b.setNode parent_ind (fun nd => { nd with left := some ind_AB }) with
          | none => none
          | some b => some ({ a with beachline := b, output := output }, ind_B)
        else none
    | none =>
      some ({ a with beachline := { b with root := some ind_AB }, output := output },
        ind_B)

/-- The sibling lookup of `Algo::delete_leaf` (`voronoi.rs` lines 210-218):
the parent's other child, panicking when neither child is the leaf. -/
def deleteLeafSibling (parentNode : BeachNode) (leaf : ℕ) : Option ℕ :=
  match parentNode.right with
  | none => none
  | some pright =>
    if pright = leaf then parentNode.left
    else
      match parentNode.left with
      | none => none
      | some pleft => if pleft = leaf then some pright else none

/-- The transplant step of `Algo::delete_leaf` (`voronoi.rs` lines 220-228):
hook the sibling under the grandparent in place of the parent. -/
def deleteLeafTransplant (b : Beachline) (grandparent sibling parent : ℕ) :
    Option Beachline :=
  match b.setNode sibling (fun nd => { nd with parent := some grandparent }) with
  | none => none
  | some b =>
    match b.nodes[grandparent]? with
    | none => none
    | some gpNode =>
      match gpNode.left with
      | none => none
      | some gleft =>
        if gleft = parent then
          b.setNode grandparent (fun nd => { nd with left := some sibling })
        else
          match gpNode.right with
          | none => none
          | some gright =>
            if gright = parent then
              b.setNode grandparent (fun nd => { nd with right := some sibling })
            else none

/-- The site-correction step of `Algo::delete_leaf` (`voronoi.rs` lines
230-239): refresh the surviving breakpoint's left or right site from its
new neighbor. -/
def deleteLeafFixOther (b : Beachline) (other pred : ℕ) : Option Beachline :=
  if other = pred then
    match b.successor other with
    | some (some new_other_succ) =>
      match b.get_site (some new_other_succ) with
      | some (some new_site) => b.set_right_site other new_site
      | _ => none
    | _ => none
  else
    match b.predecessor other with
    | some (some new_other_pred) =>
      match b.get_site (some new_other_pred) with
      | some (some new_site) => b.set_left_site other new_site
      | _ => none
    | _ => none

/-- `Algo::delete_leaf` (`voronoi.rs` lines 201-242): splice the sibling up
over the parent, fix the surviving breakpoint's site, return
(pred, succ, parent, other). -/
def Algo.delete_leaf (a : Algo) (leaf : ℕ) :
    Option (Algo × ℕ × ℕ × ℕ × ℕ) :=
  match a.beachline.predecessor leaf, a.beachline.successor leaf with
  | some (some pred), some (some succ) =>
    (match a.beachline.nodes[leaf]? with
    | none => none
    | some leafNode =>
      match leafNode.parent with
      | none => none
      | some parent =>
        match a.beachline.nodes[parent]? with
        | none => none
        | some parentNode =>
          match parentNode.parent with
          | none => none
          | some grandparent =>
            match deleteLeafSibling parentNode leaf with
            | none => none
            | some sibling =>
              match deleteLeafTransplant a.beachline grandparent sibling parent with
              | none => none
              | some b =>
                match deleteLeafFixOther b
                    (if parent = pred then succ else pred) pred with
                | none => none
                | some b =>
                  some ({ a with beachline := b }, pred, succ, parent,
                    if parent = pred then succ else pred))
  | _, _ => none

/-- Primitive beachline-mutating calls of `Algo::handle_circle_event`,
recorded in execution order to make the call ordering observable. -/
inductive HAct where
  | deleteLeafAct (leaf : ℕ)
  | removeCircleEventAct (arc : ℕ)
deriving DecidableEq

/-- The DCEL wiring of `Algo::handle_circle_event` (`voronoi.rs` lines
255-281): add a fresh twin pair and a vertex at the circle center, assign
origins, rotate the `next` pointers around the new vertex, and repoint the
surviving breakpoint (`other`) at the second new half-edge. -/
def hceWireDcel (a : Algo) (center : Point) (pred succ parent other : ℕ) :
    Option Algo :=
  let rt := a.output.add_twins
  let output := rt.1
  let twin1 := rt.2.1
  let twin2 := rt.2.2
  let center_vertex : DcelVertex := ⟨center, twin1, true⟩
  let center_vertex_ind := output.vertices.size
  let output := { output with vertices := output.vertices.push center_vertex }
  let a := { a with output := output }
  match a.beachline.get_edge pred, a.beachline.get_edge succ,
      a.beachline.get_edge parent, a.beachline.get_edge other with
  | some pred_edge, some succ_edge, some parent_edge, some other_edge =>
    (match a.output.halfedges[pred_edge]?, a.output.halfedges[succ_edge]? with
    | some pe, some se =>
      let pred_edge_twin := pe.twin
      let succ_edge_twin := se.twin
      let step := (a.output.setHalfedge parent_edge
          (fun he => { he with origin := center_vertex_ind })).bind
        (fun o => (o.setHalfedge other_edge
          (fun he => { he with origin := center_vertex_ind })).bind
        (fun o => (o.setHalfedge twin1
          (fun he => { he with origin := center_vertex_ind })).bind
        (fun o => (o.setHalfedge pred_edge_twin
          (fun he => { he with next := succ_edge })).bind
        (fun o => (o.setHalfedge succ_edge_twin
          (fun he => { he with next := twin1 })).bind
        (fun o => o.setHalfedge twin2
          (fun he => { he with next := pred_edge }))))))
      (match step with
      | none => none
      | some output =>
        let a := { a with output := output }
        match a.beachline.nodes[other]? with
        | none => none
        | some otherNode =>
          match otherNode.item with
          | .breakpoint bp =>
            (match a.beachline.setNode other
                (fun nd => { nd with item := .breakpoint { bp with edge_idx := twin2 } }) with
            | none => none
            | some b => some { a with beachline := b })
          | _ => some a)
    | _, _ => none)
  | _, _, _, _ => none

/-- The convergence re-check of `Algo::handle_circle_event` (`voronoi.rs`
lines 283-296) for one surviving neighbor arc. -/
def hceRecheck (a : Algo) (neighbor : ℕ) : Option Algo :=
  match a.beachline.get_centered_triple neighbor with
  | none => none
  | some none => some a
  | some (some triple) =>
    if breakpoints_converge triple then a.make_circle_event neighbor triple
    else some a

/-- `Algo::handle_circle_event` (`voronoi.rs` lines 244-297), instrumented
with the execution-order trace of its `delete_leaf` /
`remove_circle_event` calls. -/
def Algo.handle_circle_event (a : Algo) (data : CircleEvent) :
    Option (Algo × List HAct) :=
  let leaf := data.vanishing_arc
  match a.beachline.get_left_arc (some leaf),
      a.beachline.get_right_arc (some leaf) with
  | some (some left_neighbor), some (some right_neighbor) =>
    (match a.delete_leaf leaf with
    | none => none
    | some (a, pred, succ, parent, other) =>
      let tr := [HAct.deleteLeafAct leaf]
      match a.remove_circle_event leaf with
      | none => none
      | some a =>
        let tr := tr ++ [HAct.removeCircleEventAct leaf]
        match a.remove_circle_event left_neighbor with
        | none => none
        | some a =>
          let tr := tr ++ [HAct.removeCircleEventAct left_neighbor]
          match a.remove_circle_event right_neighbor with
          | none => none
          | some a =>
            let tr := tr ++ [HAct.removeCircleEventAct right_neighbor]
            match hceWireDcel a data.center pred succ parent other with
            | none => none
            | some a =>
              match hceRecheck a left_neighbor with
              | none => none
              | some a =>
                match hceRecheck a right_neighbor with
                | none => none
                | some a => some (a, tr))
  | _, _ => none

/-- The left-triple convergence check of `Algo::handle_site_event`
(`voronoi.rs` lines 181-188). -/
def hseCheckLeft (a : Algo) (new_node : ℕ) : Option Algo :=
  match a.beachline.get_leftward_triple new_node with
  | none => none
  | some none => some a
  | some (some left_triple) =>
    if breakpoints_converge left_triple then
      match a.beachline.get_left_arc (some new_node) with
      | some (some arc) => a.make_circle_event arc left_triple
      | _ => none
    else some a

/-- The right-triple convergence check of `Algo::handle_site_event`
(`voronoi.rs` lines 189-196). -/
def hseCheckRight (a : Algo) (new_node : ℕ) : Option Algo :=
  match a.beachline.get_rightward_triple new_node with
  | none => none
  | some none => some a
  | some (some right_triple) =>
    if breakpoints_converge right_triple then
      match a.beachline.get_right_arc (some new_node) with
      | some (some arc) => a.make_circle_event arc right_triple
      | _ => none
    else some a

/-- `Algo::handle_site_event` (`voronoi.rs` lines 166-197). -/
def Algo.handle_site_event (a : Algo) (site : Point) : Option Algo :=
  if a.beachline.is_empty then
    some { a with beachline := a.beachline.insert_point site }
  else
    match a.beachline.get_arc_above site with
    | none => none
    | some arc_above =>
      match a.remove_circle_event arc_above with
      | none => none
      | some a =>
        match a.split_arc arc_above site with
        | none => none
        | some (a, new_node) =>
          match hseCheckLeft a new_node with
          | none => none
          | some a => hseCheckRight a new_node

/-- `Algo::process_next_event` (`voronoi.rs` lines 150-164): pop and
dispatch; `false` when the queue is drained. -/
def Algo.process_next_event (a : Algo) : Option (Algo × Bool) :=
  let r := a.event_queue.pop
  let a := { a with event_queue := r.2 }
  match r.1 with
  | some (.site point) => (a.handle_site_event point).map (fun x => (x, true))
  | some (.circle data) => (a.handle_circle_event data).map (fun x => (x.1, true))
  | none => some (a, false)

/-- The driver loop `while voronoi_state.process_next_event() {}`
(`voronoi.rs` line 435), fuelled. -/
def Algo.runLoop : ℕ → Algo → Option Algo
  | 0, a => some a
  | fuel + 1, a => do
    let r ← a.process_next_event
    if r.2 then Algo.runLoop fuel r.1 else pure r.1

/-- The do-while face walk of `make_polygons` (`voronoi.rs` lines 558-562):
collect `get_origin` of each edge, follow `next`, stop on return to the
start. Fuelled; exhaustion models the source looping forever. -/
def faceLoop (d : DCEL) (start : ℕ) : ℕ → ℕ → List Point → Option (List Point)
  | 0, _, _ => none
  | fuel + 1, current, acc => do
    let p ← d.get_origin current
    let he ← d.halfedges[current]?
    if he.next = start then pure (acc ++ [p])
    else faceLoop d start fuel he.next (acc ++ [p])

/-- The per-face collection pass of `make_polygons`: one loop per alive
face, starting at its `outer_component`. -/
def collectLoops (d : DCEL) : List Face → Option (List (List Point))
  | [] => pure []
  | f :: fs =>
    if f.alive then do
      let lp ← faceLoop d f.outer_component (d.halfedges.size + 1)
        f.outer_component []
      let rest ← collectLoops d fs
      pure (lp :: rest)
    else collectLoops d fs

/-- The comparator of the `sort_by` in `make_polygons`: compare loops by
vertex count. -/
def lenLe (x y : List Point) : Prop := x.length ≤ y.length

instance : DecidableRel lenLe := fun x y =>
  inferInstanceAs (Decidable (x.length ≤ y.length))

instance : IsTotal (List Point) lenLe := ⟨fun x y => Nat.le_total _ _⟩

instance : IsTrans (List Point) lenLe := ⟨fun _ _ _ h1 h2 => Nat.le_trans h1 h2⟩

/-- `make_polygons` (`voronoi.rs` lines 551-571): collect the loop of every
alive face, sort ascending by loop length (Rust's `sort_by` on `len` is a
stable ascending sort, modelled by the stable `insertionSort`), and `pop`
the last — largest — loop (the outer face). -/
def make_polygons (d : DCEL) : Option (List (List Point)) := do
  let result ← collectLoops d d.faces.toList
  pure ((List.insertionSort lenLe result).dropLast)

/-- The full computation the claims call "the whole computation": seed the
queue from the site list, drain it, then extract the face loops of the
resulting DCEL. -/
def fullRun (points : List Point) (fuel : ℕ) : Option (List (List Point)) := do
  let a ← Algo.runLoop fuel (Algo.new points)
  make_polygons a.output

/-- A concrete state holding the single root arc produced by inserting one
site into an empty beachline; used to evaluate the theorems on explicit
inputs. -/
def algoOneArc : Algo :=
  { event_queue := EventQueue.new
    beachline := Beachline.new.insert_point ⟨0, 2⟩
    output := DCEL.new }

/-- A concrete state with the five-node beachline shape produced by one arc
split — breakpoints (A,B) and (B,A) over leaves A, B, A — together with the
matching two-half-edge DCEL; used to evaluate the theorems on explicit
inputs. -/
def algoFiveNodes : Algo :=
  { event_queue := EventQueue.new
    beachline :=
      { nodes := #[
          ⟨none, some 2, some 1, .breakpoint ⟨⟨0, 2⟩, ⟨1, 1⟩, 0⟩⟩,
          ⟨some 0, some 3, some 4, .breakpoint ⟨⟨1, 1⟩, ⟨0, 2⟩, 1⟩⟩,
          ⟨some 0, none, none, .arc ⟨⟨0, 2⟩, none⟩⟩,
          ⟨some 1, none, none, .arc ⟨⟨1, 1⟩, none⟩⟩,
          ⟨some 1, none, none, .arc ⟨⟨0, 2⟩, none⟩⟩]
        edges := [(0, 2), (0, 1), (1, 3), (1, 4)]
        root := some 0 }
    output :=
      { vertices := #[]
        halfedges := #[⟨NIL, 1, NIL, true⟩, ⟨NIL, 0, NIL, true⟩]
        faces := #[] } }

/-- A concrete circle event whose vanishing arc is the middle leaf (index 3)
of `algoFiveNodes`. -/
def circleEventB : CircleEvent := ⟨⟨1, 0⟩, some 1, 3, 7⟩

/-- A concrete DCEL with a single alive two-edge face, used to evaluate the
face-extraction theorems on an explicit input. -/
def dcelOneFace : DCEL :=
  { vertices := #[⟨⟨0, 0⟩, 0, true⟩, ⟨⟨1, 0⟩, 1, true⟩]
    halfedges := #[⟨0, 1, 1, true⟩, ⟨1, 0, 0, true⟩]
    faces := #[⟨0, true⟩] }

/-- The claim C3 states about a `handle_circle_event` trace: every
`remove_circle_event` call precedes the `delete_leaf` call. -/
def removesPrecedeDelete (tr : List HAct) : Prop :=
  ∀ i j : Fin tr.length,
    (∃ l, tr.get i = .deleteLeafAct l) →
    (∃ r, tr.get j = .removeCircleEventAct r) →
    (j : ℕ) < (i : ℕ)

instance (tr : List HAct) : Decidable (removesPrecedeDelete tr) := by
  unfold removesPrecedeDelete
  have : ∀ x : HAct, Decidable (∃ l, x = .deleteLeafAct l) := by
    intro x
    cases x with
    | deleteLeafAct l => exact isTrue ⟨l, rfl⟩
    | removeCircleEventAct r => exact isFalse (by rintro ⟨l, h⟩; cases h)
  have : ∀ x : HAct, Decidable (∃ r, x = .removeCircleEventAct r) := by
    intro x
    cases x with
    | removeCircleEventAct r => exact isTrue ⟨r, rfl⟩
    | deleteLeafAct l => exact isFalse (by rintro ⟨r, h⟩; cases h)
  infer_instance

/-! ### Helper lemmas -/

theorem ptCmp_gt_iff (p q : Point) :
    Point.cmp p q = .gt ↔ (q.y < p.y ∨ (p.y = q.y ∧ p.x < q.x)) := by
  unfold Point.cmp
  split_ifs with h1 h2 h3 h4
  · simp [h1]
  · simp [h2, h3]
  · simp [h2, h4]
  · simp [h2, h3]
  · simp [h1, h2]

theorem ptCmp_eq_iff (p q : Point) :
    Point.cmp p q = .eq ↔ (p.y = q.y ∧ p.x = q.x) := by
  unfold Point.cmp
  split_ifs with h1 h2 h3 h4
  · simp [h1.ne']
  · simp [h2, h3.ne]
  · simp [h2, h4]
  · simp [h2, h4]
  · simp [h2]

theorem ptCmp_lt_iff (p q : Point) :
    Point.cmp p q = .lt ↔ (p.y < q.y ∨ (p.y = q.y ∧ q.x < p.x)) := by
  unfold Point.cmp
  split_ifs with h1 h2 h3 h4
  · simp [asymm h1, h1.ne']
  · simp [h2, asymm h3]
  · simp [h2, h4]
  · have hx : q.x < p.x := lt_of_le_of_ne (not_lt.1 h3) (fun hh => h4 hh.symm)
    simp [h2, hx]
  · have hy : p.y < q.y := lt_of_le_of_ne (not_lt.1 h1) h2
    simp [hy]

theorem setNode_size {b b' : Beachline} {i : ℕ} {f : BeachNode → BeachNode}
    (h : b.setNode i f = some b') : b'.nodes.size = b.nodes.size := by
  unfold Beachline.setNode at h
  split at h
  · cases h
    simp [Array.size_set]
  · cases h

theorem setNode_getElem? {b b' : Beachline} {i : ℕ} {f : BeachNode → BeachNode}
    (h : b.setNode i f = some b') (j : ℕ) :
    b'.nodes[j]? = if j = i then (b.nodes[j]?).map f else b.nodes[j]? := by
  unfold Beachline.setNode at h
  split at h
  · rename_i hlt
    cases h
    by_cases hj : j = i
    · subst hj
      simp only [if_pos rfl]
      rw [Array.getElem?_set_eq b.nodes ⟨j, hlt⟩, Array.getElem?_lt _ hlt]
      rfl
    · rw [if_neg hj]
      exact Array.getElem?_set_ne b.nodes ⟨i, hlt⟩ _ (Ne.symm hj)
  · cases h

theorem setNode_root {b b' : Beachline} {i : ℕ} {f : BeachNode → BeachNode}
    (h : b.setNode i f = some b') : b'.root = b.root := by
  unfold Beachline.setNode at h
  split at h
  · cases h; rfl
  · cases h

theorem set_right_site_size {b b' : Beachline} {i : ℕ} {s : Point}
    (h : b.set_right_site i s = some b') : b'.nodes.size = b.nodes.size := by
  unfold Beachline.set_right_site at h
  split at h
  · cases h
  · split at h
    · exact setNode_size h
    · cases h

theorem set_left_site_size {b b' : Beachline} {i : ℕ} {s : Point}
    (h : b.set_left_site i s = some b') : b'.nodes.size = b.nodes.size := by
  unfold Beachline.set_left_site at h
  split at h
  · cases h
  · split at h
    · exact setNode_size h
    · cases h

theorem transplant_size {b b' : Beachline} {g s p : ℕ}
    (h : deleteLeafTransplant b g s p = some b') :
    b'.nodes.size = b.nodes.size := by
  unfold deleteLeafTransplant at h
  split at h
  · cases h
  · rename_i b1 h1
    split at h
    · cases h
    · split at h
      · cases h
      · split at h
        · exact (setNode_size h).trans (setNode_size h1)
        · split at h
          · cases h
          · split at h
            · exact (setNode_size h).trans (setNode_size h1)
            · cases h

theorem fixOther_size {b b' : Beachline} {other pred : ℕ}
    (h : deleteLeafFixOther b other pred = some b') :
    b'.nodes.size = b.nodes.size := by
  unfold deleteLeafFixOther at h
  split at h
  · split at h
    · split at h
      · exact set_right_site_size h
      · cases h
    · cases h
  · split at h
    · split at h
      · exact set_left_site_size h
      · cases h
    · cases h

theorem delete_leaf_size {a : Algo} {leaf : ℕ} {res : Algo × ℕ × ℕ × ℕ × ℕ}
    (h : a.delete_leaf leaf = some res) :
    res.1.beachline.nodes.size = a.beachline.nodes.size := by
  unfold Algo.delete_leaf at h
  repeat' split at h
  all_goals try cases h
  all_goals rename_i htrans xo bo hfo hcond
  all_goals exact (fixOther_size hfo).trans (transplant_size htrans)

theorem push5_getElem?_lt {α : Type} {arr : Array α} {v0 v1 v2 v3 v4 : α}
    {i : ℕ} (h : i < arr.size) :
    (((((arr.push v0).push v1).push v2).push v3).push v4)[i]? = arr[i]? := by
  simp only [Array.getElem?_push, Array.size_push]
  split_ifs <;> first | omega | rfl

theorem getElem?_lt_size {α : Type} {arr : Array α} {i : ℕ} {v : α}
    (h : arr[i]? = some v) : i < arr.size := by
  by_contra hge
  rw [Array.getElem?_ge arr (le_of_not_lt hge)] at h
  cases h

/-! ### Claims -/

/-- C7: for the site triple (-1,0), (0,1), (1,0), `circle_center` returns
exactly (0,0) and `circle_bottom` returns exactly -1. -/
theorem C7_concrete_circumcircle :
    circle_center (⟨-1, 0⟩, ⟨0, 1⟩, ⟨1, 0⟩) = some ⟨0, 0⟩ ∧
    circle_bottom (⟨-1, 0⟩, ⟨0, 1⟩, ⟨1, 0⟩) = some (-1) := by
  have hc : circle_center (⟨-1, 0⟩, ⟨0, 1⟩, ⟨1, 0⟩) = some ⟨0, 0⟩ := by
    unfold circle_center
    norm_num
  refine ⟨hc, ?_⟩
  unfold circle_bottom
  rw [hc]
  have hs : ratSqrt 1 = 1 := by
    unfold ratSqrt
    norm_num
  norm_num
  exact hs

/-- C8: the `Point` comparison is a total order: greater `y` compares
greater; at equal `y` the result is decided by the `x` coordinates alone;
`eq` exactly on coordinate-wise equality; and it is antisymmetric and
transitive. -/
theorem C8_point_total_order (p q r : Point) :
    (q.y < p.y → Point.cmp p q = .gt) ∧
    (p.y = q.y → Point.cmp p q =
      (if p.x < q.x then .gt else if p.x = q.x then .eq else .lt)) ∧
    (Point.cmp p q = .eq ↔ p = q) ∧
    (Point.cmp p q = .gt ↔ Point.cmp q p = .lt) ∧
    (Point.cmp p q = .gt → Point.cmp q r = .gt → Point.cmp p r = .gt) := by
  refine ⟨?_, ?_, ?_, ?_, ?_⟩
  · intro h
    exact (ptCmp_gt_iff p q).2 (Or.inl h)
  · intro h
    unfold Point.cmp
    rw [if_neg (by simp [h]), if_pos h]
  · rw [ptCmp_eq_iff]
    constructor
    · rintro ⟨hy, hx⟩
      cases p; cases q; simp_all
    · rintro rfl; exact ⟨rfl, rfl⟩
  · rw [ptCmp_gt_iff, ptCmp_lt_iff]
    constructor
    · rintro (h | ⟨h1, h2⟩)
      · exact Or.inl h
      · exact Or.inr ⟨h1.symm, h2⟩
    · rintro (h | ⟨h1, h2⟩)
      · exact Or.inl h
      · exact Or.inr ⟨h1.symm, h2⟩
  · rw [ptCmp_gt_iff, ptCmp_gt_iff, ptCmp_gt_iff]
    rintro (h1 | ⟨h1, h1x⟩) (h2 | ⟨h2, h2x⟩)
    · exact Or.inl (h2.trans h1)
    · exact Or.inl (h2 ▸ h1)
    · exact Or.inl (by rw [h1]; exact h2)
    · exact Or.inr ⟨h1.trans h2, h1x.trans h2x⟩

/-- C8 witness: the total-order clauses evaluated at concrete points. -/
theorem C8_point_total_order_witness :
    Point.cmp ⟨5, 1⟩ ⟨0, 0⟩ = .gt ∧
    (Point.cmp ⟨0, 1⟩ ⟨1, 1⟩ = .gt ∧ Point.cmp ⟨0, 1⟩ ⟨0, 1⟩ = .eq) := by
  refine ⟨(C8_point_total_order ⟨5, 1⟩ ⟨0, 0⟩ ⟨0, 0⟩).1 (by decide), ?_, ?_⟩
  · have h := (C8_point_total_order ⟨0, 1⟩ ⟨1, 1⟩ ⟨0, 0⟩).2.1 rfl
    rw [h]; decide
  · exact (C8_point_total_order ⟨0, 1⟩ ⟨0, 1⟩ ⟨0, 0⟩).2.2.1.2 rfl

/-- C4: the event comparison orders by the sweep value alone — strictly
larger sweep value compares greater, equal sweep values compare equal, an
incomparable (NaN) comparison defaults to greater, and the result depends
on nothing but the two sweep values. -/
theorem C4_event_order (e₁ e₂ : Event) :
    (∀ a b : ℚ, e₁.get_y = some a → e₂.get_y = some b → b < a →
      Event.cmp e₁ e₂ = .gt) ∧
    (∀ a : ℚ, e₁.get_y = some a → e₂.get_y = some a →
      Event.cmp e₁ e₂ = .eq) ∧
    ((e₁.get_y = none ∨ e₂.get_y = none) → Event.cmp e₁ e₂ = .gt) ∧
    (∀ f₁ f₂ : Event, f₁.get_y = e₁.get_y → f₂.get_y = e₂.get_y →
      Event.cmp f₁ f₂ = Event.cmp e₁ e₂) := by
  refine ⟨?_, ?_, ?_, ?_⟩
  · intro a b h1 h2 hlt
    unfold Event.cmp fpcmp
    rw [h1, h2]
    simp [not_lt_of_lt hlt, ne_of_gt hlt]
  · intro a h1 h2
    unfold Event.cmp fpcmp
    rw [h1, h2]
    simp
  · intro h
    unfold Event.cmp fpcmp
    rcases h with h | h <;> rw [h] <;> cases hy : Event.get_y e₂ <;>
      cases hy2 : Event.get_y e₁ <;> simp_all
  · intro f₁ f₂ h1 h2
    unfold Event.cmp
    rw [h1, h2]

/-- C4 witness: the ordering clauses evaluated at concrete events. -/
theorem C4_event_order_witness :
    Event.cmp (.site ⟨0, 1⟩) (.site ⟨5, 0⟩) = .gt ∧
    Event.cmp (.site ⟨3, 2⟩) (.site ⟨7, 2⟩) = .eq ∧
    Event.cmp (.circle ⟨⟨0, 0⟩, none, 0, 0⟩) (.site ⟨0, 9⟩) = .gt := by
  refine ⟨?_, ?_, ?_⟩
  · exact (C4_event_order _ _).1 1 0 rfl rfl (by norm_num)
  · exact (C4_event_order _ _).2.1 2 rfl rfl
  · exact (C4_event_order _ _).2.2.1 (Or.inl rfl)

/-- C5: for every collinear site triple the circumcenter is undefined (the
determinant denominator is zero) and `make_circle_event` leaves the whole
algorithm state — queue and arcs — unchanged; in particular for the triple
(-1,0), (1,0), (0,0). -/
theorem C5_collinear_no_circle_event (p1 p2 p3 : Point)
    (h : Collinear p1 p2 p3) :
    circle_center (p1, p2, p3) = none ∧
    (∀ (a : Algo) (arc : ℕ),
      a.make_circle_event arc (p1, p2, p3) = some a) ∧
    circle_center (⟨-1, 0⟩, ⟨1, 0⟩, ⟨0, 0⟩) = none := by
  have hd : circle_center (p1, p2, p3) = none := by
    unfold circle_center
    simp only
    rw [if_pos]
    unfold Collinear at h
    linear_combination (-4 : ℚ) * h
  refine ⟨hd, ?_, by unfold circle_center; norm_num⟩
  intro a arc
  unfold Algo.make_circle_event
  rw [hd]

/-- C5 witness: the collinear triple (-1,0), (1,0), (0,0) evaluated
concretely, including the unchanged-state conclusion. -/
theorem C5_collinear_no_circle_event_witness :
    circle_center (⟨-1, 0⟩, ⟨1, 0⟩, ⟨0, 0⟩) = none ∧
    Algo.make_circle_event algoOneArc 0 (⟨-1, 0⟩, ⟨1, 0⟩, ⟨0, 0⟩) =
      some algoOneArc := by
  have h := C5_collinear_no_circle_event ⟨-1, 0⟩ ⟨1, 0⟩ ⟨0, 0⟩
    (by simp [Collinear])
  exact ⟨h.1, h.2.1 algoOneArc 0⟩

/-- C10: no beachline operation removes a node from the graph:
`delete_leaf` leaves the node count unchanged (nodes are only rewritten,
never deleted), `insert_point` adds exactly one node, and `split_arc` adds
exactly five — so the node count is non-decreasing across every operation. -/
theorem C10_node_count_monotone :
    (∀ (a : Algo) (leaf : ℕ) (res : Algo × ℕ × ℕ × ℕ × ℕ),
      a.delete_leaf leaf = some res →
      res.1.beachline.nodes.size = a.beachline.nodes.size) ∧
    (∀ (b : Beachline) (pt : Point),
      (b.insert_point pt).nodes.size = b.nodes.size + 1) ∧
    (∀ (a : Algo) (arc : ℕ) (site : Point) (res : Algo × ℕ),
      a.split_arc arc site = some res →
      res.1.beachline.nodes.size = a.beachline.nodes.size + 5) := by
  refine ⟨fun a leaf res h => delete_leaf_size h,
    fun b pt => by simp [Beachline.insert_point], ?_⟩
  intro a arc site res h
  simp only [Algo.split_arc] at h
  repeat' split at h
  all_goals try cases h
  all_goals first
    | (rename_i hset
       rw [setNode_size hset]
       simp [Array.size_push])
    | simp [Array.size_push]

/-- C10 witness: the three operations evaluated on concrete states. -/
theorem C10_node_count_monotone_witness :
    (Algo.delete_leaf algoFiveNodes 3).map
      (fun r => r.1.beachline.nodes.size) = some 5 ∧
    (Beachline.new.insert_point ⟨0, 2⟩).nodes.size = 1 ∧
    (Algo.split_arc algoOneArc 0 ⟨1, 1⟩).map
      (fun r => r.1.beachline.nodes.size) = some 6 := by
  have hd : ∃ res, Algo.delete_leaf algoFiveNodes 3 = some res := by
    cases hr : Algo.delete_leaf algoFiveNodes 3
    · exact absurd hr (by decide)
    · exact ⟨_, rfl⟩
  have hsp : ∃ res, Algo.split_arc algoOneArc 0 ⟨1, 1⟩ = some res := by
    cases hr : Algo.split_arc algoOneArc 0 ⟨1, 1⟩
    · exact absurd hr (by decide)
    · exact ⟨_, rfl⟩
  obtain ⟨resd, hresd⟩ := hd
  obtain ⟨ress, hress⟩ := hsp
  refine ⟨?_, ?_, ?_⟩
  · rw [hresd]
    simp only [Option.map_some']
    rw [C10_node_count_monotone.1 algoFiveNodes 3 resd hresd]
    rfl
  · exact C10_node_count_monotone.2.1 Beachline.new ⟨0, 2⟩
  · rw [hress]
    simp only [Option.map_some']
    rw [C10_node_count_monotone.2.2 algoOneArc 0 ⟨1, 1⟩ ress hress]
    rfl

/-- C2 counterexample: splitting the single root arc adds exactly two
half-edges to the DCEL — one twin pair — not the four half-edges that "two
new half-edge twin pairs" would create. -/
theorem C2_counterexample_single_twin_pair :
    (Algo.split_arc algoOneArc 0 ⟨1, 1⟩).map
      (fun r => r.1.output.halfedges.size) =
      some (algoOneArc.output.halfedges.size + 2) ∧
    algoOneArc.output.halfedges.size + 2 ≠
      algoOneArc.output.halfedges.size + 4 := by
  constructor
  · decide
  · decide

/-- C2 (amended): `split_arc` on an arc leaf holding site A replaces it by
the 5-node subtree — breakpoint(A,new) on top with breakpoint(new,A) as its
right child and leaves Arc(A), Arc(new), Arc(A) in left-to-right in-order
position — creates ONE new half-edge twin pair (two half-edges, mutual
twins, origins unset) with one half-edge attached to each of the two new
breakpoints, returns the node of the middle (new) arc, and rewires the
original parent's child pointer (or the root, when the split leaf was the
root) to the new top breakpoint. -/
theorem C2_split_arc_structure (a a' : Algo) (arc ret : ℕ) (site A : Point)
    (se : Option ℕ) (nd : BeachNode)
    (hnd : a.beachline.nodes[arc]? = some nd)
    (hitem : nd.item = .arc ⟨A, se⟩)
    (hpwf : ∀ p, nd.parent = some p → p < a.beachline.nodes.size)
    (hsplit : a.split_arc arc site = some (a', ret)) :
    a'.beachline.nodes.size = a.beachline.nodes.size + 5 ∧
    a'.beachline.nodes[a.beachline.nodes.size]? =
      some ⟨nd.parent, some (a.beachline.nodes.size + 2),
        some (a.beachline.nodes.size + 1),
        .breakpoint ⟨A, site, a.output.halfedges.size⟩⟩ ∧
    a'.beachline.nodes[a.beachline.nodes.size + 1]? =
      some ⟨some a.beachline.nodes.size, some (a.beachline.nodes.size + 3),
        some (a.beachline.nodes.size + 4),
        .breakpoint ⟨site, A, a.output.halfedges.size + 1⟩⟩ ∧
    a'.beachline.nodes[a.beachline.nodes.size + 2]? =
      some ⟨some a.beachline.nodes.size, none, none, .arc ⟨A, none⟩⟩ ∧
    a'.beachline.nodes[a.beachline.nodes.size + 3]? =
      some ⟨some (a.beachline.nodes.size + 1), none, none, .arc ⟨site, none⟩⟩ ∧
    a'.beachline.nodes[a.beachline.nodes.size + 4]? =
      some ⟨some (a.beachline.nodes.size + 1), none, none, .arc ⟨A, none⟩⟩ ∧
    ret = a.beachline.nodes.size + 3 ∧
    a'.output.halfedges.size = a.output.halfedges.size + 2 ∧
    a'.output.halfedges[a.output.halfedges.size]? =
      some ⟨NIL, a.output.halfedges.size + 1, NIL, true⟩ ∧
    a'.output.halfedges[a.output.halfedges.size + 1]? =
      some ⟨NIL, a.output.halfedges.size, NIL, true⟩ ∧
    (nd.parent = none → a'.beachline.root = some a.beachline.nodes.size) ∧
    (∀ p pn, nd.parent = some p → a.beachline.nodes[p]? = some pn →
      (pn.right = some arc →
        a'.beachline.nodes[p]? =
          some { pn with right := some a.beachline.nodes.size }) ∧
      (pn.right ≠ some arc → pn.left = some arc →
        a'.beachline.nodes[p]? =
          some { pn with left := some a.beachline.nodes.size })) := by
  have harc : arc < a.beachline.nodes.size := getElem?_lt_size hnd
  simp only [Algo.split_arc, hnd, hitem] at hsplit
  rcases hpar : nd.parent with _ | p
  · rw [hpar] at hsplit
    simp only [Option.some.injEq, Prod.mk.injEq] at hsplit
    obtain ⟨ha, hr⟩ := hsplit
    subst ha
    subst hr
    refine ⟨?_, ?_, ?_, ?_, ?_, ?_, ?_, ?_, ?_, ?_, ?_, ?_⟩ <;>
      first
        | (intro p' pn hp'
           rw [hpar] at hp'
           cases hp')
        | (try rw [hpar]
           simp [Array.getElem?_push, Array.size_push, DCEL.add_twins]
           try (split_ifs <;> first | rfl | omega))
  · have hp_lt : p < a.beachline.nodes.size := hpwf p hpar
    simp only [hpar] at hsplit
    split at hsplit
    · cases hsplit
    · rename_i parentNode heqp
      rw [push5_getElem?_lt hp_lt] at heqp
      split at hsplit
      · rename_i hr
        split at hsplit
        · cases hsplit
        · rename_i b' hset
          simp only [Option.some.injEq, Prod.mk.injEq] at hsplit
          obtain ⟨ha, hret⟩ := hsplit
          subst ha
          subst hret
          refine ⟨?_, ?_, ?_, ?_, ?_, ?_, rfl, ?_, ?_, ?_, ?_, ?_⟩
          · rw [setNode_size hset]
            simp [Array.size_push]
          · rw [setNode_getElem? hset, if_neg (by omega)]
            simp [Array.getElem?_push, Array.size_push, DCEL.add_twins]
            try (split_ifs <;> first | rfl | omega)
          · rw [setNode_getElem? hset, if_neg (by omega)]
            simp [Array.getElem?_push, Array.size_push, DCEL.add_twins]
            try (split_ifs <;> first | rfl | omega)
          · rw [setNode_getElem? hset, if_neg (by omega)]
            simp [Array.getElem?_push, Array.size_push, DCEL.add_twins]
            try (split_ifs <;> first | rfl | omega)
          · rw [setNode_getElem? hset, if_neg (by omega)]
            simp [Array.getElem?_push, Array.size_push, DCEL.add_twins]
            try (split_ifs <;> first | rfl | omega)
          · rw [setNode_getElem? hset, if_neg (by omega)]
            simp [Array.getElem?_push, Array.size_push, DCEL.add_twins]
            try (split_ifs <;> first | rfl | omega)
          · simp [DCEL.add_twins, Array.size_push]
          · simp [DCEL.add_twins, Array.getElem?_push, Array.size_push]
          · simp [DCEL.add_twins, Array.getElem?_push, Array.size_push]
          · intro hcon
            cases hcon
          · intro p' pn hp' hpn
            cases hp'
            rw [hpn] at heqp
            cases heqp
            refine ⟨?_, ?_⟩
            · intro _
              rw [setNode_getElem? hset, if_pos rfl,
                push5_getElem?_lt hp_lt, hpn]
              rfl
            · intro hne _
              exact absurd hr hne
      · rename_i hnr
        split at hsplit
        · rename_i hl
          split at hsplit
          · cases hsplit
          · rename_i b' hset
            simp only [Option.some.injEq, Prod.mk.injEq] at hsplit
            obtain ⟨ha, hret⟩ := hsplit
            subst ha
            subst hret
            refine ⟨?_, ?_, ?_, ?_, ?_, ?_, rfl, ?_, ?_, ?_, ?_, ?_⟩
            · rw [setNode_size hset]
              simp [Array.size_push]
            · rw [setNode_getElem? hset, if_neg (by omega)]
              simp [Array.getElem?_push, Array.size_push, DCEL.add_twins]
              try (split_ifs <;> first | rfl | omega)
            · rw [setNode_getElem? hset, if_neg (by omega)]
              simp [Array.getElem?_push, Array.size_push, DCEL.add_twins]
              try (split_ifs <;> first | rfl | omega)
            · rw [setNode_getElem? hset, if_neg (by omega)]
              simp [Array.getElem?_push, Array.size_push, DCEL.add_twins]
              try (split_ifs <;> first | rfl | omega)
            · rw [setNode_getElem? hset, if_neg (by omega)]
              simp [Array.getElem?_push, Array.size_push, DCEL.add_twins]
              try (split_ifs <;> first | rfl | omega)
            · rw [setNode_getElem? hset, if_neg (by omega)]
              simp [Array.getElem?_push, Array.size_push, DCEL.add_twins]
              try (split_ifs <;> first | rfl | omega)
            · simp [DCEL.add_twins, Array.size_push]
            · simp [DCEL.add_twins, Array.getElem?_push, Array.size_push]
            · simp [DCEL.add_twins, Array.getElem?_push, Array.size_push]
            · intro hcon
              cases hcon
            · intro p' pn hp' hpn
              cases hp'
              rw [hpn] at heqp
              cases heqp
              refine ⟨?_, ?_⟩
              · intro hr'
                exact absurd hr' hnr
              · intro _ _
                rw [setNode_getElem? hset, if_pos rfl,
                  push5_getElem?_lt hp_lt, hpn]
                rfl
        · cases hsplit

/-- C2 witness: the amended claim evaluated by splitting the concrete
one-arc state. -/
theorem C2_split_arc_structure_witness :
    (Algo.split_arc algoOneArc 0 ⟨1, 1⟩).map Prod.snd = some 4 ∧
    (Algo.split_arc algoOneArc 0 ⟨1, 1⟩).map
      (fun r => r.1.beachline.nodes.size) = some 6 := by
  have hs : ∃ res, Algo.split_arc algoOneArc 0 ⟨1, 1⟩ = some res := by
    cases hr : Algo.split_arc algoOneArc 0 ⟨1, 1⟩
    · exact absurd hr (by decide)
    · exact ⟨_, rfl⟩
  obtain ⟨⟨a', ret⟩, hres⟩ := hs
  have h := C2_split_arc_structure algoOneArc a' 0 ret ⟨1, 1⟩ ⟨0, 2⟩ none
    ⟨none, none, none, .arc ⟨⟨0, 2⟩, none⟩⟩ (by decide) rfl
    (by intro p hp; cases hp) hres
  refine ⟨?_, ?_⟩
  · rw [hres]
    simp only [Option.map_some']
    rw [h.2.2.2.2.2.2.1]
    rfl
  · rw [hres]
    simp only [Option.map_some']
    rw [h.1]
    rfl

/-- C3 counterexample: on a concrete state `handle_circle_event` calls
`delete_leaf` first and performs the three circle-event cancellations after
it, so the cancellations do not all happen before `delete_leaf`. -/
theorem C3_counterexample_cancel_after_delete :
    (Algo.handle_circle_event algoFiveNodes circleEventB).map Prod.snd =
      some [HAct.deleteLeafAct 3, HAct.removeCircleEventAct 3,
        HAct.removeCircleEventAct 2, HAct.removeCircleEventAct 4] ∧
    ¬ removesPrecedeDelete
      [HAct.deleteLeafAct 3, HAct.removeCircleEventAct 3,
        HAct.removeCircleEventAct 2, HAct.removeCircleEventAct 4] := by
  constructor
  · decide
  · decide

/-- C3 (amended): in every successful `handle_circle_event` the pending
circle events of the vanishing arc and of both neighbor arcs are all
cancelled immediately AFTER `delete_leaf` returns and before anything
else: the call trace is always exactly `delete_leaf` followed by the three
`remove_circle_event` cancellations. -/
theorem C3_cancellations_follow_delete (a : Algo) (data : CircleEvent)
    (res : Algo × List HAct)
    (h : a.handle_circle_event data = some res) :
    ∃ l r,
      a.beachline.get_left_arc (some data.vanishing_arc) = some (some l) ∧
      a.beachline.get_right_arc (some data.vanishing_arc) = some (some r) ∧
      res.2 = [.deleteLeafAct data.vanishing_arc,
        .removeCircleEventAct data.vanishing_arc,
        .removeCircleEventAct l, .removeCircleEventAct r] := by
  simp only [Algo.handle_circle_event] at h
  repeat' split at h
  all_goals try cases h
  all_goals exact ⟨_, _, by assumption, by assumption, rfl⟩

/-- C3 witness: the general trace shape evaluated on the concrete
five-node state. -/
theorem C3_cancellations_follow_delete_witness :
    (Algo.handle_circle_event algoFiveNodes circleEventB).map Prod.snd =
      some [HAct.deleteLeafAct 3, HAct.removeCircleEventAct 3,
        HAct.removeCircleEventAct 2, HAct.removeCircleEventAct 4] := by
  have hs : ∃ res,
      Algo.handle_circle_event algoFiveNodes circleEventB = some res := by
    cases hr : Algo.handle_circle_event algoFiveNodes circleEventB
    · exact absurd hr (by decide)
    · exact ⟨_, rfl⟩
  obtain ⟨res, hres⟩ := hs
  obtain ⟨l, r, hl, hr2, htr⟩ :=
    C3_cancellations_follow_delete algoFiveNodes circleEventB res hres
  rw [show algoFiveNodes.beachline.get_left_arc
      (some circleEventB.vanishing_arc) = some (some 2) from by decide] at hl
  cases hl
  rw [show algoFiveNodes.beachline.get_right_arc
      (some circleEventB.vanishing_arc) = some (some 4) from by decide] at hr2
  cases hr2
  rw [hres]
  simp only [Option.map_some']
  rw [htr]
  rfl

/-- C6: `make_polygons` collects one closed vertex loop per alive face (by
following `next` pointers from the face's `outer_component` back to the
start — this is `collectLoops`), then discards exactly one loop, a loop of
maximal vertex count (the outer unbounded face), and returns every
remaining loop. -/
theorem C6_make_polygons_discards_largest (d : DCEL)
    (res all : List (List Point))
    (hall : collectLoops d d.faces.toList = some all)
    (hres : make_polygons d = some res) (hne : all ≠ []) :
    ∃ l, l ∈ all ∧ (res ++ [l]).Perm all ∧ res.length + 1 = all.length ∧
      ∀ q ∈ res, q.length ≤ l.length := by
  have hres' : (List.insertionSort lenLe all).dropLast = res := by
    simpa [make_polygons, hall] using hres
  have hperm : (List.insertionSort lenLe all).Perm all :=
    List.perm_insertionSort lenLe all
  have hsorted : List.Sorted lenLe (List.insertionSort lenLe all) :=
    List.sorted_insertionSort lenLe all
  have hsne : List.insertionSort lenLe all ≠ [] := by
    intro hnil
    exact hne (List.Perm.eq_nil (hnil ▸ hperm).symm)
  refine ⟨(List.insertionSort lenLe all).getLast hsne, ?_, ?_, ?_, ?_⟩
  · exact hperm.subset (List.getLast_mem hsne)
  · rw [← hres', List.dropLast_append_getLast hsne]
    exact hperm
  · have := hperm.length_eq
    rw [← hres']
    have hlen := List.dropLast_append_getLast hsne
    have : ((List.insertionSort lenLe all).dropLast ++
        [(List.insertionSort lenLe all).getLast hsne]).length = all.length := by
      rw [hlen]; exact hperm.length_eq
    simpa using this
  · intro q hq
    rw [← hres'] at hq
    have hsp := hsorted
    rw [← List.dropLast_append_getLast hsne] at hsp
    unfold List.Sorted at hsp
    rw [List.pairwise_append] at hsp
    exact hsp.2.2 q hq _ (List.mem_singleton_self _)

/-- C6 witness: the face-loop extraction evaluated on a concrete one-face
DCEL (the single loop is the largest, so it is discarded and nothing
remains). -/
theorem C6_make_polygons_discards_largest_witness :
    make_polygons dcelOneFace = some [] ∧
    collectLoops dcelOneFace dcelOneFace.faces.toList =
      some [[⟨0, 0⟩, ⟨1, 0⟩]] ∧
    ([] : List (List Point)).length + 1 = 1 := by
  refine ⟨by decide, by decide, ?_⟩
  obtain ⟨l, hmem, hperm, hlen, hmax⟩ :=
    C6_make_polygons_discards_largest dcelOneFace [] [[⟨0, 0⟩, ⟨1, 0⟩]]
      (by decide) (by decide) (by decide)
  simpa using hlen

/-- C9: running the whole computation twice on an identical site list in
the same order yields identical diagrams — the same face loops, hence
identical vertex coordinates and identical face-loop vertex counts. The
embedded pipeline is a pure function of the site sequence, so the two runs
agree definitionally. -/
theorem C9_run_deterministic (points : List Point) (fuel : ℕ)
    (r₁ r₂ : Option (List (List Point)))
    (h₁ : fullRun points fuel = r₁) (h₂ : fullRun points fuel = r₂) :
    r₁ = r₂ ∧
    Option.map (List.map (List.map Point.x)) r₁ =
      Option.map (List.map (List.map Point.x)) r₂ ∧
    Option.map (List.map (List.map Point.y)) r₁ =
      Option.map (List.map (List.map Point.y)) r₂ ∧
    Option.map (List.map List.length) r₁ =
      Option.map (List.map List.length) r₂ := by
  subst h₁
  subst h₂
  exact ⟨rfl, rfl, rfl, rfl⟩

/-- C9 witness: the determinism statement instantiated at a concrete
one-site run. -/
theorem C9_run_deterministic_witness :
    fullRun [⟨0, 0⟩] 3 = fullRun [⟨0, 0⟩] 3 ∧
    Option.map (List.map List.length) (fullRun [⟨0, 0⟩] 3) =
      Option.map (List.map List.length) (fullRun [⟨0, 0⟩] 3) :=
  ⟨(C9_run_deterministic [⟨0, 0⟩] 3 _ _ rfl rfl).1,
   (C9_run_deterministic [⟨0, 0⟩] 3 _ _ rfl rfl).2.2.2⟩

theorem selectMax_eq_none {l : List Event} :
    selectMax l = none ↔ l = [] := by
  cases l with
  | nil => simp [selectMax]
  | cons a l =>
    simp only [selectMax]
    constructor
    · intro h
      split at h <;> [cases h; (split at h <;> cases h)]
    · intro h
      cases h

theorem selectMax_perm :
    ∀ {l : List Event} {e : Event} {rest : List Event},
      selectMax l = some (e, rest) → l.Perm (e :: rest) := by
  intro l
  induction l with
  | nil => intro e rest h; cases h
  | cons a l ih =>
    intro e rest h
    cases hsel : selectMax l with
    | none =>
      have hl := selectMax_eq_none.1 hsel
      subst hl
      simp only [selectMax, Option.some.injEq, Prod.mk.injEq] at h
      obtain ⟨rfl, rfl⟩ := h
      exact List.Perm.refl _
    | some p =>
      obtain ⟨m, rest'⟩ := p
      simp only [selectMax, hsel] at h
      by_cases hc : Event.cmp a m = .lt
      · rw [if_pos hc] at h
        simp only [Option.some.injEq, Prod.mk.injEq] at h
        obtain ⟨rfl, rfl⟩ := h
        exact ((ih hsel).cons a).trans (List.Perm.swap _ _ _)
      · rw [if_neg hc] at h
        simp only [Option.some.injEq, Prod.mk.injEq] at h
        obtain ⟨rfl, rfl⟩ := h
        exact List.Perm.refl _

theorem selectMax_countP (p : Event → Bool) {l : List Event} {e : Event}
    {rest : List Event} (h : selectMax l = some (e, rest)) :
    l.countP p = rest.countP p + (if p e then 1 else 0) := by
  rw [(selectMax_perm h).countP_eq p]
  simp [List.countP_cons]

/-- The lazy-deletion loop never surfaces an event whose id `i` is covered
by the cancellation invariant, and it preserves that invariant. -/
theorem popLoopF_cancel (i : ℕ) :
    ∀ (fuel : ℕ) (l : List Event) (r : Finset ℕ),
      l.countP (Event.hasId i) ≤ 1 →
      (1 ≤ l.countP (Event.hasId i) → i ∈ r) →
      (∀ e, (popLoopF fuel l r).1 = some e → e.hasId i = false) ∧
      (popLoopF fuel l r).2.1.countP (Event.hasId i) ≤
        l.countP (Event.hasId i) ∧
      (1 ≤ (popLoopF fuel l r).2.1.countP (Event.hasId i) →
        i ∈ (popLoopF fuel l r).2.2) ∧
      (i ∈ r ∧ l.countP (Event.hasId i) = 0 →
        i ∈ (popLoopF fuel l r).2.2 ∧
        (popLoopF fuel l r).2.1.countP (Event.hasId i) = 0) := by
  intro fuel
  induction fuel with
  | zero =>
    intro l r h1 h2
    simp only [popLoopF]
    exact ⟨(fun e he => nomatch he), le_refl _, h2, fun hp => hp⟩
  | succ fuel ih =>
    intro l r h1 h2
    cases hsel : selectMax l with
    | none =>
      simp only [popLoopF, hsel]
      exact ⟨(fun e he => nomatch he), le_refl _, h2, fun hp => hp⟩
    | some p =>
      obtain ⟨ev, rest⟩ := p
      have hcount := selectMax_countP (Event.hasId i) hsel
      have hc1 : rest.countP (Event.hasId i) ≤ l.countP (Event.hasId i) := by
        rw [hcount]
        split <;> omega
      cases ev with
      | circle data =>
        have hc2 : data.id = i →
            l.countP (Event.hasId i) = rest.countP (Event.hasId i) + 1 := by
          intro hid
          have hT : Event.hasId i (.circle data) = true := by
            simp [Event.hasId, hid]
          rw [hcount, hT, if_pos rfl]
        have hc3 : data.id ≠ i →
            l.countP (Event.hasId i) = rest.countP (Event.hasId i) := by
          intro hid
          have hF : Event.hasId i (.circle data) = false := by
            simp [Event.hasId, hid]
          rw [hcount, hF]
          simp
        by_cases hmem : data.id ∈ r
        · simp only [popLoopF, hsel, if_pos hmem]
          have hrest1 : rest.countP (Event.hasId i) ≤ 1 := le_trans hc1 h1
          have hrest2 : 1 ≤ rest.countP (Event.hasId i) →
              i ∈ r.erase data.id := by
            intro hge
            by_cases hid : data.id = i
            · exfalso
              have := hc2 hid
              omega
            · exact Finset.mem_erase.2
                ⟨fun hh => hid hh.symm, h2 (le_trans hge hc1)⟩
          obtain ⟨ihA, ihB, ihC, ihD⟩ :=
            ih rest (r.erase data.id) hrest1 hrest2
          refine ⟨ihA, le_trans ihB hc1, ihC, ?_⟩
          intro hp
          have hne : data.id ≠ i := by
            intro hid
            have := hc2 hid
            omega
          have hzero : rest.countP (Event.hasId i) = 0 := by
            have := hc3 hne
            omega
          exact ihD ⟨Finset.mem_erase.2 ⟨fun hh => hne hh.symm, hp.1⟩, hzero⟩
        · simp only [popLoopF, hsel, if_neg hmem]
          have hne : Event.hasId i (.circle data) = false := by
            by_cases hid : data.id = i
            · exfalso
              apply hmem
              rw [hid]
              apply h2
              have := hc2 hid
              omega
            · simp [Event.hasId, hid]
          refine ⟨?_, hc1, ?_, ?_⟩
          · intro e he
            cases he
            exact hne
          · intro hge
            exact h2 (le_trans hge hc1)
          · intro hp
            refine ⟨hp.1, ?_⟩
            omega
      | site pt =>
        simp only [popLoopF, hsel]
        have hF : Event.hasId i (.site pt) = false := by simp [Event.hasId]
        have hceq : l.countP (Event.hasId i) = rest.countP (Event.hasId i) := by
          rw [hcount, hF]
          simp
        refine ⟨?_, hc1, ?_, ?_⟩
        · intro e he
          cases he
          exact hF
        · intro hge
          exact h2 (le_trans hge hc1)
        · intro hp
          refine ⟨hp.1, ?_⟩
          omega

/-- The lazy-deletion loop only ever discards events: any count over the
remaining heap is bounded by the original. -/
theorem popLoopF_countP (p : Event → Bool) :
    ∀ (fuel : ℕ) (l : List Event) (r : Finset ℕ),
      (popLoopF fuel l r).2.1.countP p ≤ l.countP p := by
  intro fuel
  induction fuel with
  | zero => intro l r; exact le_refl _
  | succ fuel ih =>
    intro l r
    cases hsel : selectMax l with
    | none => simp only [popLoopF, hsel]; exact le_refl _
    | some pr =>
      obtain ⟨ev, rest⟩ := pr
      have hcount := selectMax_countP p hsel
      have hc1 : rest.countP p ≤ l.countP p := by
        rw [hcount]
        split <;> omega
      cases ev with
      | circle data =>
        by_cases hmem : data.id ∈ r
        · simp only [popLoopF, hsel, if_pos hmem]
          exact le_trans (ih rest _) hc1
        · simp only [popLoopF, hsel, if_neg hmem]
          exact hc1
      | site pt =>
        simp only [popLoopF, hsel]
        exact hc1

theorem popLoopF_subset :
    ∀ (fuel : ℕ) (l : List Event) (r : Finset ℕ),
      ∀ e ∈ (popLoopF fuel l r).2.1, e ∈ l := by
  intro fuel
  induction fuel with
  | zero => intro l r e he; exact he
  | succ fuel ih =>
    intro l r e he
    cases hsel : selectMax l with
    | none =>
      simp only [popLoopF, hsel] at he
      exact he
    | some pr =>
      obtain ⟨ev, rest⟩ := pr
      have hperm := selectMax_perm hsel
      cases ev with
      | circle data =>
        by_cases hmem : data.id ∈ r
        · simp only [popLoopF, hsel, if_pos hmem] at he
          exact hperm.mem_iff.2 (List.mem_cons_of_mem _ (ih rest _ e he))
        · simp only [popLoopF, hsel, if_neg hmem] at he
          exact hperm.mem_iff.2 (List.mem_cons_of_mem _ he)
      | site pt =>
        simp only [popLoopF, hsel] at he
        exact hperm.mem_iff.2 (List.mem_cons_of_mem _ he)

theorem stampId_hasId {i n : ℕ} (e : Event) :
    (stampId e n).hasId i = true → n = i := by
  cases e with
  | site p =>
    intro h
    simp [stampId, Event.hasId] at h
  | circle data =>
    intro h
    simpa [stampId, Event.hasId] using h

theorem qInv_new : QInv EventQueue.new :=
  ⟨fun e he => absurd he (List.not_mem_nil e), fun i => by simp [EventQueue.new]⟩

theorem qInv_step (q : EventQueue) (op : QOp) (h : QInv q) :
    QInv (q.stepOp op).1 := by
  obtain ⟨h1, h2⟩ := h
  cases op with
  | push e =>
    simp only [EventQueue.stepOp, EventQueue.push]
    constructor
    · intro ev hev data hdata
      rcases List.mem_append.1 hev with hin | hin
      · exact lt_trans (h1 ev hin data hdata) (Nat.lt_succ_self _)
      · have hev' : ev = stampId e q.next_event_id := List.mem_singleton.1 hin
        subst hev'
        cases e with
        | site p => cases hdata
        | circle c =>
          simp only [stampId] at hdata
          cases hdata
          simp
    · intro j
      rw [List.countP_append]
      by_cases hj : (stampId e q.next_event_id).hasId j = true
      · have hnj : q.next_event_id = j := stampId_hasId e hj
        have hzero : q.events.countP (Event.hasId j) = 0 := by
          rw [List.countP_eq_zero]
          intro ev hev hIdT
          cases ev with
          | site p => simp [Event.hasId] at hIdT
          | circle data =>
            have := h1 _ hev data rfl
            simp [Event.hasId] at hIdT
            omega
        rw [hzero]
        simp [List.countP_cons, hj]
      · have hone : ([stampId e q.next_event_id].countP (Event.hasId j)) = 0 := by
          simp only [List.countP_cons, List.countP_nil]
          simp [hj]
        rw [hone]
        simpa using h2 j
  | popOp =>
    constructor
    · intro ev hev data hdata
      exact h1 ev (popLoopF_subset _ _ _ ev hev) data hdata
    · intro j
      exact le_trans (popLoopF_countP _ _ _ _) (h2 j)
  | removeOp j =>
    exact ⟨h1, h2⟩

theorem cancelInv_step (i : ℕ) (q : EventQueue) (op : QOp)
    (h : CancelInv i q) :
    CancelInv i (q.stepOp op).1 ∧
    (∀ e, (q.stepOp op).2 = some e → e.hasId i = false) := by
  obtain ⟨h1, h2, h3⟩ := h
  cases op with
  | push e =>
    refine ⟨⟨?_, ?_, ?_⟩, (fun e' he' => nomatch he')⟩ <;>
      simp only [EventQueue.stepOp, EventQueue.push]
    · rw [List.countP_append]
      by_cases hj : (stampId e q.next_event_id).hasId i = true
      · have hni := stampId_hasId e hj
        have hz := (h3 (le_of_eq hni)).2
        have hcnt1 : [stampId e q.next_event_id].countP (Event.hasId i) = 1 := by
          simp [List.countP_cons, hj]
        rw [hz, hcnt1]
      · have hcnt0 : [stampId e q.next_event_id].countP (Event.hasId i) = 0 := by
          simp [List.countP_cons, hj]
        rw [hcnt0]
        omega
    · intro hge
      by_cases hj : (stampId e q.next_event_id).hasId i = true
      · exact (h3 (le_of_eq (stampId_hasId e hj))).1
      · apply h2
        rw [List.countP_append] at hge
        have hcnt0 : [stampId e q.next_event_id].countP (Event.hasId i) = 0 := by
          simp [List.countP_cons, hj]
        omega
    · intro hle
      have hle' : q.next_event_id ≤ i := by omega
      obtain ⟨hm, hz⟩ := h3 hle'
      refine ⟨hm, ?_⟩
      rw [List.countP_append, hz]
      have hj : (stampId e q.next_event_id).hasId i = false := by
        cases hb : (stampId e q.next_event_id).hasId i
        · rfl
        · exact absurd (stampId_hasId e hb) (by omega)
      simp [List.countP_cons, hj]
  | popOp =>
    obtain ⟨A, B, C, D⟩ :=
      popLoopF_cancel i (q.events.length + 1) q.events q.removed_event_ids h1 h2
    exact ⟨⟨le_trans B h1, C, fun hle => D (h3 hle)⟩, fun e he => A e he⟩
  | removeOp j =>
    refine ⟨⟨h1, ?_, ?_⟩, (fun e' he' => nomatch he')⟩
    · intro hge
      exact Finset.mem_insert_of_mem (h2 hge)
    · intro hle
      obtain ⟨hm, hz⟩ := h3 hle
      exact ⟨Finset.mem_insert_of_mem hm, hz⟩

theorem cancelInv_establish (i : ℕ) (q : EventQueue) (h : QInv q) :
    CancelInv i (q.remove i) := by
  obtain ⟨h1, h2⟩ := h
  refine ⟨h2 i, fun _ => Finset.mem_insert_self i _, ?_⟩
  intro hle
  refine ⟨Finset.mem_insert_self i _, ?_⟩
  rw [List.countP_eq_zero]
  intro ev hev hId
  cases ev with
  | site p => simp [Event.hasId] at hId
  | circle data =>
    have := h1 _ hev data rfl
    simp [Event.hasId] at hId
    have hnext : (q.remove i).next_event_id = q.next_event_id := rfl
    rw [hnext] at hle
    omega

theorem qInv_runOps (ops : List QOp) :
    ∀ q, QInv q → QInv (runOps q ops).1 := by
  induction ops with
  | nil => intro q h; exact h
  | cons op ops ih =>
    intro q h
    exact ih _ (qInv_step q op h)

theorem cancelInv_runOps (i : ℕ) (ops : List QOp) :
    ∀ q, CancelInv i q →
      CancelInv i (runOps q ops).1 ∧
      ∀ o ∈ (runOps q ops).2, ∀ e, o = some e → e.hasId i = false := by
  induction ops with
  | nil =>
    intro q h
    exact ⟨h, fun o ho => absurd ho (List.not_mem_nil o)⟩
  | cons op ops ih =>
    intro q h
    obtain ⟨hstep, hout⟩ := cancelInv_step i q op h
    obtain ⟨hrun, houts⟩ := ih _ hstep
    refine ⟨hrun, ?_⟩
    intro o ho e he
    simp only [runOps] at ho
    rcases List.mem_cons.1 ho with rfl | hin
    · exact hout e he
    · exact houts o hin e he

/-- C1: once `remove(id)` has been called, no later `pop` — across any
sequence of further pushes, pops and removals — ever returns an event
carrying that id. -/
theorem C1_removed_id_never_popped (ops1 : List QOp) (i : ℕ)
    (ops2 : List QOp) :
    ∀ o ∈ (runOps ((runOps EventQueue.new ops1).1.remove i) ops2).2,
      ∀ e, o = some e → e.hasId i = false := by
  have hq : QInv (runOps EventQueue.new ops1).1 :=
    qInv_runOps ops1 _ qInv_new
  have hc : CancelInv i ((runOps EventQueue.new ops1).1.remove i) :=
    cancelInv_establish i _ hq
  exact fun o ho e he => (cancelInv_runOps i ops2 _ hc).2 o ho e he

/-- C1 witness: a pop performed after `remove 0` on a freshly pushed site
event; the returned event does not carry the cancelled id. -/
theorem C1_removed_id_never_popped_witness :
    (some (Event.site ⟨0, 0⟩)) ∈
      (runOps ((runOps EventQueue.new []).1.remove 0)
        [.push (.site ⟨0, 0⟩), .popOp]).2 ∧
    (Event.site ⟨0, 0⟩).hasId 0 = false :=
  ⟨by decide,
   C1_removed_id_never_popped [] 0 [.push (.site ⟨0, 0⟩), .popOp]
     (some (Event.site ⟨0, 0⟩)) (by decide) (Event.site ⟨0, 0⟩) rfl⟩

end Voronoi
